import Mathlib

/-!
# Verification of the INF-to-JSON extraction-correlation-deduplication pipeline

Shallow embedding of the core pipeline of `inf_to_json`:

* `src/reader.h` — `extract_manufacturers`, `extract_sections`,
  `extract_device_descriptions`;
* `src/report.h` — `correlate_models_sections`, `model_key` with its
  mixed-sensitivity equality, and `select_report_data`;
* `src/main.cpp` — `main_with_code` (error/exit behaviour only).

C++ wide strings are modelled as Lean `String`; the document reader
(`inf_file`, an external module not present in the sources) is modelled from
the spec as a list of named sections, each a list of key/fields lines.

The aggregation map `std::unordered_map<model_key, std::vector<std::wstring>>`
is modelled as an association list that records contents and key-insertion
order exactly; since C++ leaves the iteration order of an `unordered_map`
unspecified, the flattening step of `select_report_data` takes an explicit
iteration-order function `iter`, constrained in theorems to produce a
permutation of the entries.
-/

/-- Case-insensitive equality of text, modelling the `key_name` /
`section_name` comparison semantics. Modelled from the spec:
`CaseInsensitiveText` and `SectionName` equality ignore letter case
(the concrete types live in the external `setup_api` module, absent from
the sources). -/
def ciEq (a b : String) : Bool :=
  a.data.map Char.toLower == b.data.map Char.toLower

/-- One key/value line of the document: `key = field0, field1, ...`.
Modelled from the spec: each visited line exposes its key column and its
ordered fields. -/
structure line where
  key : String
  fields : List String


/-- One bracketed section of the document. Modelled from the spec: a named
block of key/value lines. -/
structure inf_section where
  name : String
  lines : List line


/-- The opened INF document (`inf_file` in the sources). Modelled from the
spec: an ordered collection of sections. -/
structure inf_file where
  sections : List inf_section


/-- `inf_file::for_each_line` section lookup: the lines of the section whose
name matches case-insensitively, or `none` when no such section exists.
Modelled from the spec: sections are identified case-insensitively. -/
def find_section_lines (inf : inf_file) (name : String) : Option (List line) :=
  (inf.sections.find? (fun s => ciEq s.name name)).map (fun s => s.lines)

/-- Error message thrown by `extract_device_descriptions` on a zero-field
device line (`MissingInstallSectionError` in the spec's taxonomy). -/
def devErrMsg : String := "install-section-name field is missing"

/-- Error raised when a required section is absent
(`MissingSectionError` in the spec's taxonomy). -/
def missingSectionErrMsg : String := "MissingSectionError"

/-- Parsed `[Manufacturer]` line (`manufacturer_line` in `src/reader.h`). -/
structure manufacturer_line where
  name : String
  models_section_name : String
  architectures : List String


/-- Parsed device entry of a models section (`device_description_line` in
`src/reader.h`). -/
structure device_description_line where
  device_description : String
  install_section : String
  hardware_ids : List String


/-- Per-line body of `extract_manufacturers` (`src/reader.h`, lines 55-78):
the key column is the name; field 0, when present, is the base models
section name, otherwise the name itself; fields 1.. are the architecture
qualifiers. -/
def parse_manufacturer_line (l : line) : manufacturer_line :=
  match l.fields with
  | [] => { name := l.key, models_section_name := l.key, architectures := [] }
  | f0 :: fs => { name := l.key, models_section_name := f0, architectures := fs }

/-- `extract_manufacturers` (`src/reader.h`, lines 51-82): all lines of the
`Manufacturer` section, matched case-insensitively, parsed in file order;
a missing section is a fatal error. -/
def extract_manufacturers (inf : inf_file) : Except String (List manufacturer_line) :=
  match find_section_lines inf "Manufacturer" with
  | none => .error missingSectionErrMsg
  | some ls => .ok (ls.map parse_manufacturer_line)

/-- `extract_sections` (`src/reader.h`, lines 89-100): the case-insensitive
set of all section names, modelled as the list of names deduplicated
case-insensitively keeping the first occurrence (the element stored by
`std::unordered_set::emplace`). -/
def extract_sections (inf : inf_file) : List String :=
  inf.sections.foldl
    (fun acc s => if acc.any (fun t => ciEq t s.name) then acc else acc ++ [s.name]) []

/-- Per-line body of `extract_device_descriptions` (`src/reader.h`, lines
118-139): zero fields throw; field 0 is the install section; fields 1..
are the hardware ids (possibly none). -/
def parse_device_line (l : line) : Except String device_description_line :=
  match l.fields with
  | [] => .error devErrMsg
  | f0 :: fs => .ok { device_description := l.key, install_section := f0, hardware_ids := fs }

/-- The visitor loop of `extract_device_descriptions`: parse lines in file
order, the first failure aborting the whole extraction. -/
def parse_device_lines : List line → Except String (List device_description_line)
  | [] => .ok []
  | l :: rest =>
    match parse_device_line l with
    | .error e => .error e
    | .ok d =>
      match parse_device_lines rest with
      | .error e => .error e
      | .ok tail => .ok (d :: tail)

/-- `extract_device_descriptions` (`src/reader.h`, lines 112-143). -/
def extract_device_descriptions (inf : inf_file) (models_section_name : String) :
    Except String (List device_description_line) :=
  match find_section_lines inf models_section_name with
  | none => .error missingSectionErrMsg
  | some ls => parse_device_lines ls

/-- `models_sections_correlation` (`src/report.h`, lines 38-43). -/
structure models_sections_correlation where
  architecture : String
  models_section : String


/-- The `std::unordered_set<section_name>::find` of the correlator: the
stored element that compares case-insensitively equal to `n`, if any. -/
def findSection (all : List String) (n : String) : Option String :=
  all.find? (fun t => ciEq t n)

/-- `correlate_models_sections` (`src/report.h`, lines 53-83): yield the base
section when it exists, then for each architecture qualifier in declared
order the composed `base.arch` section when it exists; the yielded section
identity is the element stored in the set. -/
def correlate_models_sections (m : manufacturer_line) (all : List String) :
    List models_sections_correlation :=
  (match findSection all m.models_section_name with
   | some s => [{ architecture := "", models_section := s }]
   | none => [])
  ++ m.architectures.filterMap (fun arch =>
      (findSection all (m.models_section_name ++ "." ++ arch)).map
        (fun s => { architecture := arch, models_section := s }))

/-- `model_key` (`src/report.h`, lines 91-96): description compared
case-insensitively, hardware ids an ordered case-sensitive list. -/
structure model_key where
  description : String
  hardware_ids : List String


/-- `operator==(model_key, model_key)` (`src/report.h`, lines 125-129). -/
def model_key.beq (l r : model_key) : Bool :=
  ciEq l.description r.description && l.hardware_ids == r.hardware_ids

/-- Output `model` (`src/report.h`, lines 7-13). -/
structure model where
  description : String
  hardware_ids : List String
  architectures : List String


/-- Output `manufacturer` (`src/report.h`, lines 19-24). -/
structure manufacturer where
  name : String
  devices : List model


/-- The aggregation state of `select_report_data`: the contents of
`model_data` as an association list in key-insertion order. -/
abbrev model_data_t := List (model_key × List String)

/-- The `model_key` built from a device declaration in `select_report_data`
(`src/report.h`, line 157). -/
def device_key (d : device_description_line) : model_key :=
  { description := d.device_description, hardware_ids := d.hardware_ids }

/-- One aggregation step of `select_report_data` (`src/report.h`, lines
157-171): if the device's key is already present (the map holds at most one
matching entry, so the first match is the entry `find` returns), append the
current architecture tag to its tag list, keeping the stored key; otherwise
insert the key at the end with a singleton tag list. -/
def add_device (arch : String) (d : device_description_line) :
    model_data_t → model_data_t
  | [] => [(device_key d, [arch])]
  | p :: rest =>
    if model_key.beq p.1 (device_key d)
    then (p.1, p.2 ++ [arch]) :: rest
    else p :: add_device arch d rest

/-- The correlation loop of `select_report_data` (`src/report.h`, lines
153-173): for each correlated section, parse its devices and fold them into
the aggregation map; parse failures abort. -/
def process_sections (inf : inf_file) :
    List models_sections_correlation → model_data_t → Except String model_data_t
  | [], mdata => .ok mdata
  | c :: rest, mdata =>
    match extract_device_descriptions inf c.models_section with
    | .error e => .error e
    | .ok devs =>
      process_sections inf rest (devs.foldl (fun md d => add_device c.architecture d md) mdata)

/-- Aggregation of one manufacturer: run the correlator over the section set
and fold every device of every correlated section into an initially empty
map. -/
def aggregate_manufacturer (inf : inf_file) (all : List String) (m : manufacturer_line) :
    Except String model_data_t :=
  process_sections inf (correlate_models_sections m all) []

/-- The flattening of one `model_data` entry list into report models
(`src/report.h`, lines 177-194); `to_utf8` is the identity on the Lean
side since encoding is outside the core. -/
def flatten_models (entries : model_data_t) : List model :=
  entries.map (fun p =>
    { description := p.1.description, hardware_ids := p.1.hardware_ids, architectures := p.2 })

/-- The manufacturer loop of `select_report_data` (`src/report.h`, lines
150-197). `iter` is the iteration order of the `std::unordered_map` when the
map is flattened: C++ leaves it unspecified, so it is an explicit parameter,
applied to the insertion-ordered entry list of each manufacturer. -/
def build_report (iter : model_data_t → model_data_t) (inf : inf_file) (all : List String) :
    List manufacturer_line → Except String (List manufacturer)
  | [] => .ok []
  | m :: rest =>
    match aggregate_manufacturer inf all m with
    | .error e => .error e
    | .ok mdata =>
      match build_report iter inf all rest with
      | .error e => .error e
      | .ok tail => .ok ({ name := m.name, devices := flatten_models (iter mdata) } :: tail)

/-- `select_report_data` (`src/report.h`, lines 145-200). -/
def select_report_data (iter : model_data_t → model_data_t) (inf : inf_file) :
    Except String (List manufacturer) :=
  match extract_manufacturers inf with
  | .error e => .error e
  | .ok ms => build_report iter inf (extract_sections inf) ms

/-- `exit_codes` (`src/main.cpp`, lines 16-23). -/
inductive exit_codes where
  | success
  | invalid_arguments
  | error
  | unspecified_error
  | out_of_memory


/-- `main_with_code` (`src/main.cpp`, lines 31-70), restricted to the
pipeline behaviour: on success the report is emitted and the exit code is
`success`; on a pipeline error an error payload is emitted instead, no
report is produced, and the exit code is `error`. -/
def main_with_code (iter : model_data_t → model_data_t) (inf : inf_file) :
    exit_codes × Option (List manufacturer) :=
  match select_report_data iter inf with
  | .ok r => (.success, some r)
  | .error _ => (.error, none)

/-- Existence test on the section set as the spec phrases it:
`baseSectionName exists verbatim in the set` under the set's
case-insensitive identity. -/
def sectionExists (all : List String) (n : String) : Bool :=
  all.any (fun t => ciEq t n)

/-- The Section Correlator exactly as the spec states it, for the refinement
claim: first the base pair when the base section name is in the set, then,
for each architecture qualifier in declared order, the pair for
`base + "." + qualifier` when that composed name is in the set; missing
sections are skipped, nothing else is yielded. -/
def correlatorSpec (m : manufacturer_line) (all : List String) :
    List models_sections_correlation :=
  (if sectionExists all m.models_section_name
   then [{ architecture := "", models_section := m.models_section_name }]
   else [])
  ++ m.architectures.filterMap (fun arch =>
      if sectionExists all (m.models_section_name ++ "." ++ arch)
      then some { architecture := arch
                , models_section := m.models_section_name ++ "." ++ arch }
      else none)

/-- Concrete document: one manufacturer `M = Sec`, one models section `Sec`
with two devices. -/
def exInf : inf_file :=
  { sections :=
      [ { name := "Manufacturer", lines := [{ key := "M", fields := ["Sec"] }] }
      , { name := "Sec"
        , lines := [ { key := "D1", fields := ["I", "HW1"] }
                   , { key := "D2", fields := ["I", "HW2"] } ] } ] }

/-- Concrete document: one manufacturer whose base section and composed
architecture section both do not exist. -/
def exInfNoSec : inf_file :=
  { sections :=
      [ { name := "Manufacturer"
        , lines := [{ key := "M", fields := ["Nope", "ntamd64"] }] } ] }

/-- Concrete document: the models section `Sec` holds a device line with
zero fields. -/
def exInfBadLine : inf_file :=
  { sections :=
      [ { name := "Manufacturer", lines := [{ key := "M", fields := ["Sec"] }] }
      , { name := "Sec", lines := [{ key := "D", fields := [] }] } ] }

/-! ## Helper lemmas -/

theorem ciEq_refl (a : String) : ciEq a a = true := by
  simp [ciEq]

theorem add_device_absent (arch : String) (d : device_description_line) :
    ∀ mdata : model_data_t,
      (∀ p ∈ mdata, model_key.beq p.1 (device_key d) = false) →
      add_device arch d mdata = mdata ++ [(device_key d, [arch])]
  | [], _ => rfl
  | p :: rest, h => by
    have hp : model_key.beq p.1 (device_key d) = false := h p (List.mem_cons_self p rest)
    simp only [add_device, hp, Bool.false_eq_true, if_false, List.cons_append, List.cons.injEq,
      true_and]
    exact add_device_absent arch d rest (fun q hq => h q (List.mem_cons_of_mem p hq))

theorem add_device_found (arch : String) (d : device_description_line)
    (k : model_key) (tags : List String) :
    ∀ l1 l2 : model_data_t,
      (∀ p ∈ l1, model_key.beq p.1 (device_key d) = false) →
      model_key.beq k (device_key d) = true →
      add_device arch d (l1 ++ (k, tags) :: l2) = l1 ++ (k, tags ++ [arch]) :: l2
  | [], l2, _, hk => by
    simp [add_device, hk]
  | p :: l1, l2, h, hk => by
    have hp : model_key.beq p.1 (device_key d) = false := h p (List.mem_cons_self p l1)
    simp only [List.cons_append, add_device, hp, Bool.false_eq_true, if_false,
      List.cons.injEq, true_and]
    exact add_device_found arch d k tags l1 l2
      (fun q hq => h q (List.mem_cons_of_mem p hq)) hk

theorem findSection_ci {all : List String} {n s : String}
    (h : findSection all n = some s) : ciEq s n = true := by
  unfold findSection at h
  have h2 := List.find?_some h
  exact h2

theorem findSection_mem {all : List String} {n s : String}
    (h : findSection all n = some s) : s ∈ all := by
  unfold findSection at h
  exact List.mem_of_find?_eq_some h

theorem sectionExists_true_of_find {all : List String} {n s : String}
    (h : findSection all n = some s) : sectionExists all n = true :=
  List.any_eq_true.2 ⟨s, findSection_mem h, findSection_ci h⟩

theorem sectionExists_false_of_find {all : List String} {n : String}
    (h : findSection all n = none) : sectionExists all n = false := by
  unfold findSection at h
  exact List.any_eq_false.mpr (List.find?_eq_none.1 h)

theorem parse_manufacturer_line_name (l : line) :
    (parse_manufacturer_line l).name = l.key := by
  cases h : l.fields <;> simp [parse_manufacturer_line, h]

theorem build_report_names (iter : model_data_t → model_data_t) (inf : inf_file)
    (all : List String) :
    ∀ (ms : List manufacturer_line) (rep : List manufacturer),
      build_report iter inf all ms = Except.ok rep →
      rep.map (fun man => man.name) = ms.map (fun m => m.name)
  | [], rep, h => by
    simp only [build_report] at h
    cases h
    rfl
  | m :: rest, rep, h => by
    simp only [build_report] at h
    split at h
    · cases h
    · split at h
      · cases h
      · next tail hrest =>
          cases h
          simpa using build_report_names iter inf all rest tail hrest

theorem build_report_ok (iter : model_data_t → model_data_t) (inf : inf_file)
    (all : List String) :
    ∀ (ms : List manufacturer_line) (rep : List manufacturer),
      build_report iter inf all ms = Except.ok rep →
      rep.length = ms.length ∧
      ∀ i (h1 : i < ms.length) (h2 : i < rep.length),
        ∃ mdata,
          aggregate_manufacturer inf all (ms.get ⟨i, h1⟩) = Except.ok mdata ∧
          rep.get ⟨i, h2⟩ =
            { name := (ms.get ⟨i, h1⟩).name, devices := flatten_models (iter mdata) }
  | [], rep, h => by
    simp only [build_report] at h
    cases h
    exact ⟨rfl, fun i h1 _ => absurd h1 (Nat.not_lt_zero i)⟩
  | m :: rest, rep, h => by
    simp only [build_report] at h
    split at h
    · cases h
    · next mdata hagg =>
        split at h
        · cases h
        · next tail hrest =>
            cases h
            obtain ⟨hlen, hget⟩ := build_report_ok iter inf all rest tail hrest
            refine ⟨by simpa using hlen, fun i h1 h2 => ?_⟩
            cases i with
            | zero => exact ⟨mdata, hagg, rfl⟩
            | succ j =>
              exact hget j (Nat.lt_of_succ_lt_succ h1) (Nat.lt_of_succ_lt_succ h2)

theorem add_device_tags_ne_nil (arch : String) (d : device_description_line) :
    ∀ mdata : model_data_t,
      (∀ p ∈ mdata, p.2 ≠ []) →
      ∀ p ∈ add_device arch d mdata, p.2 ≠ []
  | [], _, p, hp => by
    simp only [add_device, List.mem_singleton] at hp
    subst hp
    simp
  | q :: rest, h, p, hp => by
    simp only [add_device] at hp
    by_cases hq : model_key.beq q.1 (device_key d) = true
    · rw [if_pos hq] at hp
      rcases List.mem_cons.1 hp with h1 | h1
      · subst h1
        simp
      · exact h p (List.mem_cons_of_mem q h1)
    · rw [if_neg hq] at hp
      rcases List.mem_cons.1 hp with h1 | h1
      · subst h1
        exact h p (List.mem_cons_self p rest)
      · exact add_device_tags_ne_nil arch d rest
          (fun r hr => h r (List.mem_cons_of_mem q hr)) p h1

theorem foldl_add_device_tags_ne_nil (arch : String) :
    ∀ (devs : List device_description_line) (mdata : model_data_t),
      (∀ p ∈ mdata, p.2 ≠ []) →
      ∀ p ∈ devs.foldl (fun md d => add_device arch d md) mdata, p.2 ≠ []
  | [], mdata, h, p, hp => h p hp
  | d :: devs, mdata, h, p, hp => by
    simp only [List.foldl_cons] at hp
    exact foldl_add_device_tags_ne_nil arch devs (add_device arch d mdata)
      (add_device_tags_ne_nil arch d mdata h) p hp

theorem process_sections_tags_ne_nil (inf : inf_file) :
    ∀ (corrs : List models_sections_correlation) (mdata out : model_data_t),
      process_sections inf corrs mdata = Except.ok out →
      (∀ p ∈ mdata, p.2 ≠ []) →
      ∀ p ∈ out, p.2 ≠ []
  | [], mdata, out, h, hm, p, hp => by
    simp only [process_sections] at h
    cases h
    exact hm p hp
  | c :: rest, mdata, out, h, hm, p, hp => by
    simp only [process_sections] at h
    split at h
    · cases h
    · next devs hdevs =>
        exact process_sections_tags_ne_nil inf rest _ out h
          (foldl_add_device_tags_ne_nil c.architecture devs mdata hm) p hp

theorem aggregate_tags_ne_nil (inf : inf_file) (all : List String)
    (m : manufacturer_line) (mdata : model_data_t)
    (h : aggregate_manufacturer inf all m = Except.ok mdata) :
    ∀ p ∈ mdata, p.2 ≠ [] := by
  unfold aggregate_manufacturer at h
  exact process_sections_tags_ne_nil inf _ [] mdata h (by intro p hp; cases hp)

/-! ## Claim theorems -/

/-- C3: two `model_key`s are equal exactly when the descriptions agree up to
letter case and the hardware-id lists agree element-wise, in order and
case-sensitively; in particular keys whose hardware ids differ only in
letter case are not equal. -/
theorem model_key_eq_iff :
    (∀ k1 k2 : model_key,
      model_key.beq k1 k2 = true ↔
        (k1.description.data.map Char.toLower = k2.description.data.map Char.toLower ∧
         k1.hardware_ids = k2.hardware_ids)) ∧
    model_key.beq { description := "D", hardware_ids := ["HW1"] }
      { description := "D", hardware_ids := ["hw1"] } = false := by
  constructor
  · intro k1 k2
    simp [model_key.beq, ciEq]
  · rfl

/-- C5 counterexample: a device line with exactly one field (the install
section) is parsed successfully into a `device_description_line` whose
hardware-id list is empty — construction does not fail when the hardware-id
sequence is empty. -/
theorem empty_hardware_ids_created_cex :
    parse_device_line { key := "Device", fields := ["InstallSec"] }
      = Except.ok { device_description := "Device", install_section := "InstallSec"
                  , hardware_ids := [] } := rfl

/-- C5 amended: constructing a device declaration fails exactly when the
line supplies zero fields (no install-section field); a line with at least
one field always succeeds, field 0 becomes the install section and the
remaining fields — possibly none — become the hardware ids. -/
theorem parse_device_line_fails_iff_no_fields :
    ∀ l : line,
      (parse_device_line l = Except.error devErrMsg ↔ l.fields = []) ∧
      (∀ f0 fs, l.fields = f0 :: fs →
        parse_device_line l =
          Except.ok { device_description := l.key, install_section := f0
                    , hardware_ids := fs }) := by
  intro l
  constructor
  · constructor
    · intro h
      cases hf : l.fields with
      | nil => rfl
      | cons f0 fs => simp [parse_device_line, hf] at h
    · intro h
      simp [parse_device_line, h]
  · intro f0 fs h
    simp [parse_device_line, h]

theorem parse_device_line_fails_iff_no_fields_witness :
    parse_device_line { key := "D", fields := ["S"] }
      = Except.ok { device_description := "D", install_section := "S"
                  , hardware_ids := [] } :=
  (parse_device_line_fails_iff_no_fields { key := "D", fields := ["S"] }).2 "S" [] rfl

/-- C6: one aggregation step — when the device's key matches an entry of the
map (the map holds at most one matching entry), the current architecture
tag is appended to that entry's tag list unconditionally, even when the tag
list already contains it; when no entry matches, the key is inserted with a
singleton tag list holding exactly the current tag. -/
theorem aggregator_step_append_or_insert :
    (∀ (arch : String) (d : device_description_line) (l1 l2 : model_data_t)
        (k : model_key) (tags : List String),
      (∀ p ∈ l1, model_key.beq p.1 (device_key d) = false) →
      model_key.beq k (device_key d) = true →
      add_device arch d (l1 ++ (k, tags) :: l2) = l1 ++ (k, tags ++ [arch]) :: l2) ∧
    (∀ (arch : String) (d : device_description_line) (mdata : model_data_t),
      (∀ p ∈ mdata, model_key.beq p.1 (device_key d) = false) →
      add_device arch d mdata = mdata ++ [(device_key d, [arch])]) := by
  constructor
  · intro arch d l1 l2 k tags h1 hk
    exact add_device_found arch d k tags l1 l2 h1 hk
  · intro arch d mdata h
    exact add_device_absent arch d mdata h

theorem aggregator_step_append_or_insert_witness :
    add_device "a1" { device_description := "D", install_section := "S"
                    , hardware_ids := ["H"] }
      [({ description := "D", hardware_ids := ["H"] }, ["a1"])]
    = [({ description := "D", hardware_ids := ["H"] }, ["a1", "a1"])] := by
  have h := aggregator_step_append_or_insert.1 "a1"
    { device_description := "D", install_section := "S", hardware_ids := ["H"] }
    [] [] { description := "D", hardware_ids := ["H"] } ["a1"]
    (by intro p hp; simp at hp) rfl
  simpa using h

/-- C9: the aggregation step never reads the install-section reference, and
when a later declaration merges into an existing key, the stored first
discovered description casing is kept — the output model carries the first
declaration's description. -/
theorem first_discovery_description_wins :
    (∀ (mdata : model_data_t) (arch : String) (d : device_description_line) (s : String),
      add_device arch { d with install_section := s } mdata = add_device arch d mdata) ∧
    (∀ (d d' : device_description_line) (a1 a2 : String),
      ciEq d.device_description d'.device_description = true →
      d.hardware_ids = d'.hardware_ids →
      add_device a2 d' (add_device a1 d []) =
        [({ description := d.device_description, hardware_ids := d.hardware_ids }
          , [a1, a2])]) := by
  constructor
  · intro mdata arch d s
    induction mdata with
    | nil => rfl
    | cons p rest ih =>
      show add_device arch { d with install_section := s } (p :: rest)
          = add_device arch d (p :: rest)
      simp only [add_device]
      have hd : device_key { d with install_section := s } = device_key d := rfl
      rw [hd, ih]
  · intro d d' a1 a2 hdesc hids
    have hbeq : model_key.beq (device_key d) (device_key d') = true := by
      simp [model_key.beq, device_key, hdesc, hids]
    show add_device a2 d' [(device_key d, [a1])] = [(device_key d, [a1, a2])]
    simp [add_device, hbeq]

/-- C2: the correlator's output matches, pair for pair and in order, what
the spec prescribes — first the base pair exactly when the base section
name is in the set, then one pair per architecture qualifier in declared
order exactly when the composed `base.qualifier` name is in the set;
architectures agree verbatim and the yielded section identity agrees with
the spec's name under the set's case-insensitive identity; missing sections
contribute nothing and no error is possible (the function is total). -/
theorem correlator_matches_declaration_spec :
    ∀ (m : manufacturer_line) (all : List String),
      List.Forall₂
        (fun c d : models_sections_correlation =>
          c.architecture = d.architecture ∧ ciEq c.models_section d.models_section = true)
        (correlate_models_sections m all) (correlatorSpec m all) := by
  intro m all
  unfold correlate_models_sections correlatorSpec
  apply List.rel_append
  · rcases h : findSection all m.models_section_name with _ | s
    · rw [sectionExists_false_of_find h]
      simp
    · rw [sectionExists_true_of_find h]
      simp only [if_true]
      exact List.forall₂_cons.2 ⟨⟨rfl, findSection_ci h⟩, List.Forall₂.nil⟩
  · induction m.architectures with
    | nil => simp
    | cons a rest ih =>
      simp only [List.filterMap_cons]
      rcases h : findSection all (m.models_section_name ++ "." ++ a) with _ | s
      · rw [sectionExists_false_of_find h]
        simpa using ih
      · rw [sectionExists_true_of_find h]
        simp only [Option.map_some', if_true]
        exact List.forall₂_cons.2 ⟨⟨rfl, findSection_ci h⟩, ih⟩

theorem first_discovery_description_wins_witness :
    add_device "arm"
      { device_description := "d1", install_section := "S2", hardware_ids := ["HW"] }
      (add_device ""
        { device_description := "D1", install_section := "S1", hardware_ids := ["HW"] }
        [])
    = [({ description := "D1", hardware_ids := ["HW"] }, ["", "arm"])] :=
  first_discovery_description_wins.2
    { device_description := "D1", install_section := "S1", hardware_ids := ["HW"] }
    { device_description := "d1", install_section := "S2", hardware_ids := ["HW"] }
    "" "arm" rfl rfl

/-- C7: the manufacturers of the report appear in exactly the order of the
manufacturer declaration lines in the source document's `Manufacturer`
section, for every document and every map iteration order. -/
theorem report_preserves_manufacturer_order :
    ∀ (iter : model_data_t → model_data_t) (inf : inf_file) (mlines : List line)
      (rep : List manufacturer),
      find_section_lines inf "Manufacturer" = some mlines →
      select_report_data iter inf = Except.ok rep →
      rep.map (fun man => man.name) = mlines.map (fun l => l.key) := by
  intro iter inf mlines rep hfind hsel
  simp only [select_report_data, extract_manufacturers, hfind] at hsel
  have h := build_report_names iter inf (extract_sections inf)
    (mlines.map parse_manufacturer_line) rep hsel
  rw [h, List.map_map]
  simp [Function.comp, parse_manufacturer_line_name]

theorem report_preserves_manufacturer_order_witness :
    ([{ name := "M"
      , devices := [ { description := "D1", hardware_ids := ["HW1"], architectures := [""] }
                   , { description := "D2", hardware_ids := ["HW2"], architectures := [""] } ] }]
      : List manufacturer).map (fun man => man.name)
    = ([{ key := "M", fields := ["Sec"] }] : List line).map (fun l => l.key) :=
  report_preserves_manufacturer_order id exInf [{ key := "M", fields := ["Sec"] }]
    [{ name := "M"
     , devices := [ { description := "D1", hardware_ids := ["HW1"], architectures := [""] }
                  , { description := "D2", hardware_ids := ["HW2"], architectures := [""] } ] }]
    rfl rfl

/-- C8: a manufacturer for which the correlator yields no sections at all is
aggregated without error into the empty map, and whenever the whole run
succeeds it appears in the report at its file-order position with an empty
devices list. -/
theorem manufacturer_without_sections_still_reported :
    ∀ (iter : model_data_t → model_data_t) (inf : inf_file)
      (ms : List manufacturer_line) (i : Nat) (h1 : i < ms.length),
      (∀ l : model_data_t, (iter l).Perm l) →
      extract_manufacturers inf = Except.ok ms →
      correlate_models_sections (ms.get ⟨i, h1⟩) (extract_sections inf) = [] →
      aggregate_manufacturer inf (extract_sections inf) (ms.get ⟨i, h1⟩) = Except.ok [] ∧
      ∀ rep, select_report_data iter inf = Except.ok rep →
        ∃ h2 : i < rep.length,
          rep.get ⟨i, h2⟩ = { name := (ms.get ⟨i, h1⟩).name, devices := [] } := by
  intro iter inf ms i h1 hiter hms hcorr
  have hagg : aggregate_manufacturer inf (extract_sections inf) (ms.get ⟨i, h1⟩)
      = Except.ok [] := by
    unfold aggregate_manufacturer
    rw [hcorr]
    rfl
  refine ⟨hagg, fun rep hsel => ?_⟩
  have hb : build_report iter inf (extract_sections inf) ms = Except.ok rep := by
    simp only [select_report_data, hms] at hsel
    exact hsel
  obtain ⟨hlen, hget⟩ := build_report_ok iter inf (extract_sections inf) ms rep hb
  have h2 : i < rep.length := by rw [hlen]; exact h1
  refine ⟨h2, ?_⟩
  obtain ⟨mdata, hagg2, hrepget⟩ := hget i h1 h2
  rw [hagg] at hagg2
  obtain rfl : ([] : model_data_t) = mdata := by simpa using hagg2
  have hniliter : iter [] = [] := List.Perm.eq_nil (hiter [])
  rw [hrepget, hniliter]
  rfl

theorem manufacturer_without_sections_still_reported_witness :
    aggregate_manufacturer exInfNoSec (extract_sections exInfNoSec)
      { name := "M", models_section_name := "Nope", architectures := ["ntamd64"] }
    = Except.ok [] :=
  (manufacturer_without_sections_still_reported id exInfNoSec
    [{ name := "M", models_section_name := "Nope", architectures := ["ntamd64"] }] 0
    (Nat.zero_lt_one) (fun l => List.Perm.refl l) rfl rfl).1

/-- C10: in every successfully produced report, every model of every
manufacturer has a non-empty architectures list: a key enters the map only
together with the tag it was first observed under, and tags are only ever
appended. -/
theorem architectures_nonempty :
    ∀ (iter : model_data_t → model_data_t) (inf : inf_file) (rep : List manufacturer),
      (∀ l : model_data_t, (iter l).Perm l) →
      select_report_data iter inf = Except.ok rep →
      ∀ man ∈ rep, ∀ mdl ∈ man.devices, mdl.architectures ≠ [] := by
  intro iter inf rep hiter hsel man hman mdl hmdl
  unfold select_report_data at hsel
  cases hms : extract_manufacturers inf with
  | error e => rw [hms] at hsel; cases hsel
  | ok ms =>
    rw [hms] at hsel
    have hb : build_report iter inf (extract_sections inf) ms = Except.ok rep := hsel
    obtain ⟨hlen, hget⟩ := build_report_ok iter inf (extract_sections inf) ms rep hb
    obtain ⟨⟨i, h2⟩, hn⟩ := List.mem_iff_get.1 hman
    obtain ⟨mdata, hagg, hrepget⟩ := hget i (by rw [← hlen]; exact h2) h2
    rw [hrepget] at hn
    subst hn
    simp only [flatten_models, List.mem_map] at hmdl
    obtain ⟨p, hp, hpe⟩ := hmdl
    have hpmem : p ∈ mdata := (List.Perm.mem_iff (hiter mdata)).1 hp
    have htag := aggregate_tags_ne_nil inf (extract_sections inf) _ mdata hagg p hpmem
    rw [← hpe]
    exact htag

theorem architectures_nonempty_witness :
    ({ description := "D1", hardware_ids := ["HW1"], architectures := [""] }
      : model).architectures ≠ [] :=
  architectures_nonempty id exInf
    [{ name := "M"
     , devices := [ { description := "D1", hardware_ids := ["HW1"], architectures := [""] }
                  , { description := "D2", hardware_ids := ["HW2"], architectures := [""] } ] }]
    (fun l => List.Perm.refl l) rfl
    { name := "M"
    , devices := [ { description := "D1", hardware_ids := ["HW1"], architectures := [""] }
                 , { description := "D2", hardware_ids := ["HW2"], architectures := [""] } ] }
    (List.mem_singleton.2 rfl)
    { description := "D1", hardware_ids := ["HW1"], architectures := [""] }
    (List.mem_cons_self _ _)

/-- C1 counterexample: the reported device order depends on the iteration
order of the `std::unordered_map` being flattened. Reversal is an
admissible iteration order (it permutes the entries, first conjunct), and
under it the concrete two-device document yields the devices in the
opposite of their first-discovery order, a different report from the
insertion-ordered one — so first-discovery output order is not guaranteed
by the code. -/
theorem device_order_depends_on_iteration_cex :
    (([ ({ description := "D2", hardware_ids := ["HW2"] }, [""])
      , ({ description := "D1", hardware_ids := ["HW1"] }, [""]) ] : model_data_t).Perm
      [ ({ description := "D1", hardware_ids := ["HW1"] }, [""])
      , ({ description := "D2", hardware_ids := ["HW2"] }, [""]) ]) ∧
    select_report_data List.reverse exInf =
      Except.ok [{ name := "M"
                 , devices :=
                     [ { description := "D2", hardware_ids := ["HW2"], architectures := [""] }
                     , { description := "D1", hardware_ids := ["HW1"], architectures := [""] } ] }] ∧
    select_report_data id exInf =
      Except.ok [{ name := "M"
                 , devices :=
                     [ { description := "D1", hardware_ids := ["HW1"], architectures := [""] }
                     , { description := "D2", hardware_ids := ["HW2"], architectures := [""] } ] }] ∧
    ([ { description := "D2", hardware_ids := ["HW2"], architectures := [""] }
     , { description := "D1", hardware_ids := ["HW1"], architectures := [""] } ] : List model)
      ≠ [ { description := "D1", hardware_ids := ["HW1"], architectures := [""] }
        , { description := "D2", hardware_ids := ["HW2"], architectures := [""] } ] :=
  ⟨List.Perm.swap _ _ _, rfl, rfl,
    fun h => absurd (congrArg (List.map (fun m => m.description)) h) (by decide)⟩

/-- C1 amended: for every document and every admissible iteration order of
the aggregation map, each reported manufacturer's devices list is a
permutation of the first-discovery-ordered model list (the insertion-ordered
map contents with their discovery-ordered tags); the order itself is the
unspecified hash-map iteration order. -/
theorem devices_perm_of_first_discovery :
    ∀ (iter : model_data_t → model_data_t) (inf : inf_file)
      (ms : List manufacturer_line) (rep : List manufacturer),
      (∀ l : model_data_t, (iter l).Perm l) →
      extract_manufacturers inf = Except.ok ms →
      select_report_data iter inf = Except.ok rep →
      rep.length = ms.length ∧
      ∀ i (h1 : i < ms.length) (h2 : i < rep.length),
        ∃ mdata,
          aggregate_manufacturer inf (extract_sections inf) (ms.get ⟨i, h1⟩)
            = Except.ok mdata ∧
          ((rep.get ⟨i, h2⟩).devices).Perm (flatten_models mdata) := by
  intro iter inf ms rep hiter hms hsel
  have hb : build_report iter inf (extract_sections inf) ms = Except.ok rep := by
    simp only [select_report_data, hms] at hsel
    exact hsel
  obtain ⟨hlen, hget⟩ := build_report_ok iter inf (extract_sections inf) ms rep hb
  refine ⟨hlen, fun i h1 h2 => ?_⟩
  obtain ⟨mdata, hagg, hrepget⟩ := hget i h1 h2
  refine ⟨mdata, hagg, ?_⟩
  rw [hrepget]
  exact (hiter mdata).map _

theorem devices_perm_of_first_discovery_witness :
    ([ { description := "D1", hardware_ids := ["HW1"], architectures := [""] }
     , { description := "D2", hardware_ids := ["HW2"], architectures := [""] } ]
      : List model).Perm
      (flatten_models
        [ ({ description := "D1", hardware_ids := ["HW1"] }, [""])
        , ({ description := "D2", hardware_ids := ["HW2"] }, [""]) ]) := by
  obtain ⟨mdata, hagg, hperm⟩ :=
    (devices_perm_of_first_discovery id exInf
      [{ name := "M", models_section_name := "Sec", architectures := [] }]
      [{ name := "M"
       , devices := [ { description := "D1", hardware_ids := ["HW1"], architectures := [""] }
                    , { description := "D2", hardware_ids := ["HW2"], architectures := [""] } ] }]
      (fun l => List.Perm.refl l) rfl rfl).2 0 Nat.zero_lt_one Nat.zero_lt_one
  have hagg2 : aggregate_manufacturer exInf (extract_sections exInf)
      { name := "M", models_section_name := "Sec", architectures := [] }
      = Except.ok [ ({ description := "D1", hardware_ids := ["HW1"] }, [""])
                  , ({ description := "D2", hardware_ids := ["HW2"] }, [""]) ] := rfl
  have hagg3 : aggregate_manufacturer exInf (extract_sections exInf)
      { name := "M", models_section_name := "Sec", architectures := [] }
      = Except.ok mdata := hagg
  rw [hagg3] at hagg2
  obtain rfl : mdata = _ := by simpa using hagg2
  exact hperm

theorem parse_device_line_error_msg (l : line) (e : String)
    (h : parse_device_line l = Except.error e) : e = devErrMsg := by
  unfold parse_device_line at h
  split at h
  · cases h; rfl
  · cases h

theorem parse_device_lines_error_msg :
    ∀ (ls : List line) (e : String),
      parse_device_lines ls = Except.error e → e = devErrMsg
  | [], e, h => by cases h
  | l :: rest, e, h => by
    simp only [parse_device_lines] at h
    split at h
    · next e2 hp =>
        cases h
        exact parse_device_line_error_msg l _ hp
    · split at h
      · next e2 hrest =>
          cases h
          exact parse_device_lines_error_msg rest _ hrest
      · cases h

theorem parse_device_lines_error_of_bad :
    ∀ ls : List line, (∃ l ∈ ls, l.fields = []) →
      parse_device_lines ls = Except.error devErrMsg
  | [], h => by
    obtain ⟨l, hl, _⟩ := h
    cases hl
  | l0 :: rest, h => by
    obtain ⟨l, hl, hfields⟩ := h
    rcases List.mem_cons.1 hl with rfl | hmem
    · simp only [parse_device_lines, parse_device_line, hfields]
    · have hrest := parse_device_lines_error_of_bad rest ⟨l, hmem, hfields⟩
      cases hp : parse_device_line l0 with
      | error e =>
        rw [parse_device_line_error_msg l0 e hp] at hp
        simp only [parse_device_lines, hp]
      | ok d =>
        simp only [parse_device_lines, hp, hrest]

theorem foldl_sections_names :
    ∀ (secs : List inf_section) (acc : List String) (x : String),
      x ∈ secs.foldl
        (fun acc s => if acc.any (fun t => ciEq t s.name) then acc else acc ++ [s.name]) acc →
      x ∈ acc ∨ ∃ sec, sec ∈ secs ∧ sec.name = x
  | [], _, _, h => Or.inl h
  | s :: secs, acc, x, h => by
    simp only [List.foldl_cons] at h
    rcases foldl_sections_names secs _ x h with h1 | ⟨sec, hsec, hname⟩
    · by_cases hc : acc.any (fun t => ciEq t s.name) = true
      · rw [if_pos hc] at h1
        exact Or.inl h1
      · rw [if_neg hc] at h1
        rcases List.mem_append.1 h1 with h2 | h2
        · exact Or.inl h2
        · exact Or.inr ⟨s, List.mem_cons_self s secs, (List.mem_singleton.1 h2).symm⟩
    · exact Or.inr ⟨sec, List.mem_cons_of_mem s hsec, hname⟩

theorem extract_sections_names (inf : inf_file) (x : String)
    (h : x ∈ extract_sections inf) : ∃ sec, sec ∈ inf.sections ∧ sec.name = x := by
  unfold extract_sections at h
  rcases foldl_sections_names inf.sections [] x h with h1 | h1
  · cases h1
  · exact h1

theorem find_section_lines_of_mem_extract (inf : inf_file) (s : String)
    (h : s ∈ extract_sections inf) : ∃ ls, find_section_lines inf s = some ls := by
  obtain ⟨sec, hsec, hname⟩ := extract_sections_names inf s h
  have hex : ∃ x ∈ inf.sections, ciEq x.name s = true :=
    ⟨sec, hsec, by rw [hname]; exact ciEq_refl s⟩
  have h2 : (inf.sections.find? (fun t => ciEq t.name s)).isSome := by
    rw [List.find?_isSome]
    exact hex
  obtain ⟨sec2, hfind⟩ := Option.isSome_iff_exists.1 h2
  refine ⟨sec2.lines, ?_⟩
  unfold find_section_lines
  rw [hfind]
  rfl

theorem corr_models_section_mem (m : manufacturer_line) (all : List String)
    (corr : models_sections_correlation)
    (h : corr ∈ correlate_models_sections m all) : corr.models_section ∈ all := by
  unfold correlate_models_sections at h
  rcases List.mem_append.1 h with h1 | h1
  · rcases hf : findSection all m.models_section_name with _ | s
    · rw [hf] at h1
      cases h1
    · rw [hf] at h1
      obtain rfl := List.mem_singleton.1 h1
      exact findSection_mem hf
  · obtain ⟨a, _, hfa⟩ := List.mem_filterMap.1 h1
    obtain ⟨s, hs, rfl⟩ := Option.map_eq_some'.1 hfa
    exact findSection_mem hs

theorem extract_device_eq (inf : inf_file) (sec : String) (ls : List line)
    (h : find_section_lines inf sec = some ls) :
    extract_device_descriptions inf sec = parse_device_lines ls := by
  unfold extract_device_descriptions
  rw [h]

theorem process_sections_ok_or_msg (inf : inf_file) :
    ∀ (corrs : List models_sections_correlation) (mdata : model_data_t),
      (∀ c ∈ corrs, ∃ ls, find_section_lines inf c.models_section = some ls) →
      (∃ out, process_sections inf corrs mdata = Except.ok out) ∨
        process_sections inf corrs mdata = Except.error devErrMsg
  | [], mdata, _ => Or.inl ⟨mdata, rfl⟩
  | c :: rest, mdata, h => by
    obtain ⟨ls, hls⟩ := h c (List.mem_cons_self c rest)
    have hx := extract_device_eq inf c.models_section ls hls
    cases hp : parse_device_lines ls with
    | error e =>
      right
      have he : e = devErrMsg := parse_device_lines_error_msg ls e hp
      subst he
      simp only [process_sections, hx, hp]
    | ok devs =>
      rcases process_sections_ok_or_msg inf rest
        (devs.foldl (fun md d => add_device c.architecture d md) mdata)
        (fun c2 hc2 => h c2 (List.mem_cons_of_mem c hc2)) with ⟨out, hout⟩ | hout
      · left
        refine ⟨out, ?_⟩
        simp only [process_sections, hx, hp]
        exact hout
      · right
        simp only [process_sections, hx, hp]
        exact hout

theorem process_sections_error_of_bad (inf : inf_file) :
    ∀ (corrs : List models_sections_correlation) (mdata : model_data_t),
      (∀ c ∈ corrs, ∃ ls, find_section_lines inf c.models_section = some ls) →
      (∃ c ∈ corrs, ∃ ls, find_section_lines inf c.models_section = some ls ∧
        ∃ l ∈ ls, l.fields = []) →
      process_sections inf corrs mdata = Except.error devErrMsg
  | [], _, _, hbad => by
    obtain ⟨c, hc, _⟩ := hbad
    cases hc
  | c0 :: rest, mdata, hres, hbad => by
    obtain ⟨ls0, hls0⟩ := hres c0 (List.mem_cons_self c0 rest)
    have hx := extract_device_eq inf c0.models_section ls0 hls0
    obtain ⟨c, hc, ls, hls, l, hl, hfields⟩ := hbad
    rcases List.mem_cons.1 hc with rfl | hmem
    · rw [hls0] at hls
      obtain rfl := Option.some.inj hls
      have hbadp := parse_device_lines_error_of_bad ls0 ⟨l, hl, hfields⟩
      simp only [process_sections, hx, hbadp]
    · cases hp : parse_device_lines ls0 with
      | error e =>
        have he := parse_device_lines_error_msg ls0 e hp
        subst he
        simp only [process_sections, hx, hp]
      | ok devs =>
        have hrest := process_sections_error_of_bad inf rest
          (devs.foldl (fun md d => add_device c0.architecture d md) mdata)
          (fun c2 hc2 => hres c2 (List.mem_cons_of_mem c0 hc2))
          ⟨c, hmem, ls, hls, l, hl, hfields⟩
        simp only [process_sections, hx, hp]
        exact hrest

theorem aggregate_error_of_bad (inf : inf_file) (m : manufacturer_line)
    (corr : models_sections_correlation) (ls : List line) (l : line)
    (hcorr : corr ∈ correlate_models_sections m (extract_sections inf))
    (hls : find_section_lines inf corr.models_section = some ls)
    (hl : l ∈ ls) (hfields : l.fields = []) :
    aggregate_manufacturer inf (extract_sections inf) m = Except.error devErrMsg := by
  unfold aggregate_manufacturer
  apply process_sections_error_of_bad inf _ []
  · intro c hc
    exact find_section_lines_of_mem_extract inf c.models_section
      (corr_models_section_mem m _ c hc)
  · exact ⟨corr, hcorr, ls, hls, l, hl, hfields⟩

theorem aggregate_ok_or_msg (inf : inf_file) (m : manufacturer_line) :
    (∃ out, aggregate_manufacturer inf (extract_sections inf) m = Except.ok out) ∨
      aggregate_manufacturer inf (extract_sections inf) m = Except.error devErrMsg := by
  unfold aggregate_manufacturer
  apply process_sections_ok_or_msg
  intro c hc
  exact find_section_lines_of_mem_extract inf c.models_section
    (corr_models_section_mem m _ c hc)

theorem build_report_error_of_bad (iter : model_data_t → model_data_t) (inf : inf_file) :
    ∀ ms : List manufacturer_line,
      (∃ m ∈ ms, aggregate_manufacturer inf (extract_sections inf) m
        = Except.error devErrMsg) →
      build_report iter inf (extract_sections inf) ms = Except.error devErrMsg
  | [], hbad => by
    obtain ⟨m, hm, _⟩ := hbad
    cases hm
  | m0 :: rest, hbad => by
    obtain ⟨m, hm, hmerr⟩ := hbad
    rcases List.mem_cons.1 hm with rfl | hmem
    · simp only [build_report, hmerr]
    · rcases aggregate_ok_or_msg inf m0 with ⟨out, hout⟩ | hout
      · have hrest := build_report_error_of_bad iter inf rest ⟨m, hmem, hmerr⟩
        simp only [build_report, hout, hrest]
      · simp only [build_report, hout]

/-- C4: whenever some correlated models section of some manufacturer holds a
device line with zero fields, the whole run aborts with the
missing-install-section error: `select_report_data` yields that error, and
the program exits with the `error` code producing no report at all. -/
theorem zero_field_line_aborts_run :
    ∀ (iter : model_data_t → model_data_t) (inf : inf_file)
      (ms : List manufacturer_line) (m : manufacturer_line)
      (corr : models_sections_correlation) (ls : List line) (l : line),
      extract_manufacturers inf = Except.ok ms →
      m ∈ ms →
      corr ∈ correlate_models_sections m (extract_sections inf) →
      find_section_lines inf corr.models_section = some ls →
      l ∈ ls →
      l.fields = [] →
      select_report_data iter inf = Except.error devErrMsg ∧
      main_with_code iter inf = (exit_codes.error, none) := by
  intro iter inf ms m corr ls l hms hm hcorr hls hl hfields
  have hagg := aggregate_error_of_bad inf m corr ls l hcorr hls hl hfields
  have hbuild := build_report_error_of_bad iter inf ms ⟨m, hm, hagg⟩
  have hsel : select_report_data iter inf = Except.error devErrMsg := by
    simp only [select_report_data, hms]
    exact hbuild
  exact ⟨hsel, by simp only [main_with_code, hsel]⟩

theorem zero_field_line_aborts_run_witness :
    select_report_data id exInfBadLine = Except.error devErrMsg ∧
    main_with_code id exInfBadLine = (exit_codes.error, none) :=
  zero_field_line_aborts_run id exInfBadLine
    [{ name := "M", models_section_name := "Sec", architectures := [] }]
    { name := "M", models_section_name := "Sec", architectures := [] }
    { architecture := "", models_section := "Sec" }
    [{ key := "D", fields := [] }]
    { key := "D", fields := [] }
    rfl (List.mem_singleton.2 rfl)
    (show _ ∈ ([{ architecture := "", models_section := "Sec" }]
        : List models_sections_correlation)
      from List.mem_singleton.2 rfl)
    rfl (List.mem_singleton.2 rfl) rfl

theorem model_key_eq_iff_witness :
    model_key.beq { description := "Abc", hardware_ids := ["HW1"] }
      { description := "aBC", hardware_ids := ["HW1"] } = true :=
  (model_key_eq_iff.1 { description := "Abc", hardware_ids := ["HW1"] }
    { description := "aBC", hardware_ids := ["HW1"] }).2 ⟨rfl, rfl⟩

theorem correlator_matches_declaration_spec_witness :
    List.Forall₂
      (fun c d : models_sections_correlation =>
        c.architecture = d.architecture ∧ ciEq c.models_section d.models_section = true)
      (correlate_models_sections
        { name := "M", models_section_name := "Acme", architectures := ["ntamd64", "arm"] }
        ["acme", "Acme.ntamd64"])
      (correlatorSpec
        { name := "M", models_section_name := "Acme", architectures := ["ntamd64", "arm"] }
        ["acme", "Acme.ntamd64"]) :=
  correlator_matches_declaration_spec
    { name := "M", models_section_name := "Acme", architectures := ["ntamd64", "arm"] }
    ["acme", "Acme.ntamd64"]
